import Mathlib

/-!
Shallow embedding of the SynkGo rewards bot (`src/main.py`): a points ledger
over a single JSON document with users, codes, gift codes, withdrawals,
moderators and settings.  Each `save_db` call in the source is one committed
transaction; operations are modelled as functions from the document to the
list of states committed by the handler, in order.  Python numbers that can
become floats (balances, settings) are modelled as exact rationals; `round`
is modelled as round-half-to-even, matching CPython.
-/

namespace SynkGo

/-- Association-list lookup, first match wins (models Python dict access;
dict keys are unique, but lookup is defined for any list). -/
def lookupKey {α β : Type} [DecidableEq α] (k : α) : List (α × β) → Option β
  | [] => none
  | (k', v) :: rest => if k = k' then some v else lookupKey k rest

/-- Replace the first binding of `k`, or append one (models `d[k] = v`). -/
def upsert {α β : Type} [DecidableEq α] (k : α) (v : β) : List (α × β) → List (α × β)
  | [] => [(k, v)]
  | (k', v') :: rest => if k = k' then (k, v) :: rest else (k', v') :: upsert k v rest

/-- Apply `f` to the first binding of `k`, if present (models in-place
mutation of a dict entry). -/
def updateKey {α β : Type} [DecidableEq α] (k : α) (f : β → β) : List (α × β) → List (α × β)
  | [] => []
  | (k', v') :: rest => if k = k' then (k', f v') :: rest else (k', v') :: updateKey k f rest

/-- Floor of a rational (kernel-evaluable: floor division of the numerator
by the positive denominator). -/
def ratFloor (q : ℚ) : ℤ := q.num.fdiv q.den

/-- Round half to even, as CPython `round` does on its arguments. -/
def roundHalfEven (q : ℚ) : ℤ :=
  if q - ratFloor q < 1/2 then ratFloor q
  else if 1/2 < q - ratFloor q then ratFloor q + 1
  else if ratFloor q % 2 = 0 then ratFloor q else ratFloor q + 1

/-- Python `round(q, 4)`: round to four decimal places, half to even. -/
def pyRound4 (q : ℚ) : ℚ := (roundHalfEven (q * 10000) : ℚ) / 10000

inductive CStatus | pending | approved | rejected
deriving DecidableEq

inductive WStatus | pending | processing | completed | failed
deriving DecidableEq

/-- One entry of `db['codes']` (`process_code_submission`). -/
structure Code where
  status : CStatus
  user_id : ℕ
  timestamp : ℚ
  moderator_id : Option ℕ
  processed_at : Option ℚ
deriving DecidableEq

/-- One entry of `db['users']`.  The source reads most keys through
`.get(key, default)`, so a record here carries those defaults in place of an
absent key; `balance` and `total_earned` are the two keys the source also
reads by raw subscript (`user['balance'] += ...`), which raises `KeyError`
when the key is absent, so their presence is tracked explicitly by
`has_balance` / `has_total_earned` (a record created by
`process_code_submission` holds neither key; an absent key stands next to
the `.get` default value 0). -/
structure User where
  balance : ℚ
  submission_count : ℕ
  last_submission : ℚ
  referral_code : String
  referred_by : Option ℕ
  referrals : List ℕ
  referral_commission : ℚ
  total_earned : ℚ
  withdrawals : ℕ
  banned : Bool
  has_balance : Bool
  has_total_earned : Bool
deriving DecidableEq

/-- The fresh, complete user record created by `start` / `handle_message` /
`/adjust`: every key present. -/
def defaultUser (uid : ℕ) : User :=
  { balance := 0,
    submission_count := 0,
    last_submission := 0,
    referral_code := "REF" ++ toString uid,
    referred_by := none,
    referrals := [],
    referral_commission := 0,
    total_earned := 0,
    withdrawals := 0,
    banned := false,
    has_balance := true,
    has_total_earned := true }

/-- The partial record written by `process_code_submission` for a previously
unknown user: only `last_submission` and `submission_count` keys exist, so
in particular the `balance` and `total_earned` keys are absent (every other
field holds its `.get` default). -/
def partialUser (uid : ℕ) : User :=
  { defaultUser uid with has_balance := false, has_total_earned := false }

/-- One entry of `db['gift_codes']` (`/create`). -/
structure GiftCode where
  points : ℤ
  max_claims : ℤ
  claims : ℤ
  created_at : ℚ
  created_by : ℕ
  users_claimed : List ℕ
deriving DecidableEq

/-- One entry of `db['withdrawals']` (`process_withdrawal`). -/
structure Withdrawal where
  user_id : ℕ
  points : ℤ
  address : String
  status : WStatus
  timestamp : ℚ
  tx_hash : Option String
deriving DecidableEq

/-- `db['settings']`.  `bot_active` is `bot_status == 'active'`. -/
structure Settings where
  reward_per_code : ℚ
  referral_rate : ℚ
  min_withdraw : ℚ
  bot_active : Bool
deriving DecidableEq

/-- The whole persisted document, plus the `ADMIN_ID` environment constant. -/
structure DB where
  admin_id : ℕ
  users : List (ℕ × User)
  codes : List (String × Code)
  gift_codes : List (String × GiftCode)
  withdrawals : List (String × Withdrawal)
  moderators : List (ℕ × Bool)
  settings : Settings
deriving DecidableEq

/-- `is_banned`: `db['users'].get(str(uid), {}).get('banned', False)`. -/
def isBanned (db : DB) (uid : ℕ) : Bool :=
  ((lookupKey uid db.users).map User.banned).getD false

/-- `is_moderator`: present in `db['moderators']` with status `'active'`. -/
def isModerator (db : DB) (uid : ℕ) : Bool :=
  (lookupKey uid db.moderators).getD false

/-- The guard of the moderation branch of `button_handler`:
`user_id == ADMIN_ID or is_moderator(user_id)`. -/
def authorizedMod (db : DB) (uid : ℕ) : Bool :=
  decide (uid = db.admin_id) || isModerator db uid

/-- `db['users']` after `if str(uid) not in db['users']: db['users'][str(uid)] = {...defaults...}`. -/
def ensureUser (uid : ℕ) (users : List (ℕ × User)) : List (ℕ × User) :=
  if (lookupKey uid users).isSome then users else upsert uid (defaultUser uid) users

/-- The regex `^[A-Za-z0-9]{5,15}$` of `process_code_submission`
(stated on the character list of the string, which is what the kernel can
evaluate). -/
def validCodeFormat (code : String) : Bool :=
  decide (5 ≤ code.data.length) && decide (code.data.length ≤ 15) &&
    code.data.all Char.isAlphanum

inductive SubmitResult
  | bannedUser | maintenance | invalidFormat | cooldown | dailyLimit | duplicate | ok
deriving DecidableEq

/-- `process_code_submission(user_id, code)`: the checks in source order
(ban, maintenance, format, 5-minute cooldown, `submission_count >= 30`,
duplicate code), then one commit inserting the pending code and bumping the
user's counter and timestamp. -/
def process_code_submission (db : DB) (uid : ℕ) (code : String) (now : ℚ) :
    SubmitResult × List DB :=
  let user := (lookupKey uid db.users).getD (partialUser uid)
  if user.banned then (.bannedUser, [])
  else if !db.settings.bot_active then (.maintenance, [])
  else if !validCodeFormat code then (.invalidFormat, [])
  else if 0 < 300 - (now - user.last_submission) then (.cooldown, [])
  else if 30 ≤ user.submission_count then (.dailyLimit, [])
  else if (lookupKey code db.codes).isSome then (.duplicate, [])
  else
    let newCode : Code :=
      { status := .pending, user_id := uid, timestamp := now,
        moderator_id := none, processed_at := none }
    let user' := { user with
      last_submission := now,
      submission_count := user.submission_count + 1 }
    (.ok, [{ db with
      codes := upsert code newCode db.codes,
      users := upsert uid user' db.users }])

/-- The approval credit of `button_handler`: the submitter gets `reward` on
balance and `total_earned` via `.get`-defaulted assignments (which create
the two keys when absent); then, reading the updated map, if the submitter's
`referred_by` is truthy and names an existing user, that referrer gets
`round(reward * referral_rate, 4)` on `referral_commission` and balance,
again by assignment (creating the referrer's `balance` key). -/
def creditApprove (users : List (ℕ × User)) (sub : ℕ) (reward rate : ℚ) :
    List (ℕ × User) :=
  let users1 := updateKey sub
    (fun u => { u with
      balance := u.balance + reward,
      total_earned := u.total_earned + reward,
      has_balance := true,
      has_total_earned := true }) users
  match ((lookupKey sub users1).getD (defaultUser sub)).referred_by with
  | none => users1
  | some r =>
    if r ≠ 0 ∧ (lookupKey r users1).isSome then
      let commission := pyRound4 (reward * rate)
      updateKey r
        (fun u => { u with
          referral_commission := u.referral_commission + commission,
          balance := u.balance + commission,
          has_balance := true }) users1
    else users1

inductive DecideResult
  | bannedUser | notAuthorized | notFoundOrProcessed | alreadyLocked | userNotFound | decided
deriving DecidableEq

/-- The `approve_code:` branch of `button_handler`, after the ban and
authorization gates: requires the code to exist with status `pending` and
`moderator_id` unset; first commit records the lock, second commit applies
the credit and the terminal status. -/
def approve_code_core (db : DB) (caller : ℕ) (code : String) (now : ℚ) :
    DecideResult × List DB :=
  match lookupKey code db.codes with
  | none => (.notFoundOrProcessed, [])
  | some c =>
    if c.status ≠ .pending then (.notFoundOrProcessed, [])
    else match c.moderator_id with
    | some _ => (.alreadyLocked, [])
    | none =>
      let c1 := { c with moderator_id := some caller }
      let db1 := { db with codes := upsert code c1 db.codes }
      if (lookupKey c.user_id db1.users).isSome then
        let reward := db.settings.reward_per_code
        let users2 := creditApprove db1.users c.user_id reward db.settings.referral_rate
        let c2 := { c1 with status := .approved, processed_at := some now }
        let db2 := { db1 with users := users2, codes := upsert code c2 db1.codes }
        (.decided, [db1, db2])
      else (.userNotFound, [db1])

/-- The `reject_code:` branch: same lock step, then only the terminal status
and `processed_at` change in the second commit. -/
def reject_code_core (db : DB) (caller : ℕ) (code : String) (now : ℚ) :
    DecideResult × List DB :=
  match lookupKey code db.codes with
  | none => (.notFoundOrProcessed, [])
  | some c =>
    if c.status ≠ .pending then (.notFoundOrProcessed, [])
    else match c.moderator_id with
    | some _ => (.alreadyLocked, [])
    | none =>
      let c1 := { c with moderator_id := some caller }
      let db1 := { db with codes := upsert code c1 db.codes }
      let c2 := { c1 with status := .rejected, processed_at := some now }
      let db2 := { db1 with codes := upsert code c2 db1.codes }
      (.decided, [db1, db2])

/-- `approve_code:` with the ban and moderator gates of `button_handler`. -/
def approve_code (db : DB) (caller : ℕ) (code : String) (now : ℚ) :
    DecideResult × List DB :=
  if isBanned db caller then (.bannedUser, [])
  else if !authorizedMod db caller then (.notAuthorized, [])
  else approve_code_core db caller code now

/-- `reject_code:` with the ban and moderator gates of `button_handler`. -/
def reject_code (db : DB) (caller : ℕ) (code : String) (now : ℚ) :
    DecideResult × List DB :=
  if isBanned db caller then (.bannedUser, [])
  else if !authorizedMod db caller then (.notAuthorized, [])
  else reject_code_core db caller code now

/-- The body of the `approve_all_codes` loop for one code: no lock check;
skips codes whose submitter has no user record, otherwise credits and marks
approved with `moderator_id = ADMIN_ID`. -/
def approveOne (db : DB) (now : ℚ) (code : String) : DB :=
  match lookupKey code db.codes with
  | none => db
  | some c =>
    if (lookupKey c.user_id db.users).isSome then
      let users2 := creditApprove db.users c.user_id
        db.settings.reward_per_code db.settings.referral_rate
      let c2 := { c with
        status := .approved, moderator_id := some db.admin_id,
        processed_at := some now }
      { db with users := users2, codes := upsert code c2 db.codes }
    else db

/-- `approve_all_codes`: iterate over the pending-code keys computed up
front, then a single commit. -/
def approve_all_core (db : DB) (now : ℚ) : DB :=
  let pending := (db.codes.filter (fun p => decide (p.2.status = .pending))).map Prod.fst
  pending.foldl (fun d code => approveOne d now code) db

/-- `approve_all_codes` with the ban gate and the `user_id == ADMIN_ID` guard. -/
def approve_all (db : DB) (caller : ℕ) (now : ℚ) : List DB :=
  if isBanned db caller then []
  else if caller = db.admin_id then [approve_all_core db now]
  else []

inductive GiftResult
  | bannedUser | notFound | exhausted | alreadyClaimed | keyMissing | ok
deriving DecidableEq

/-- The single-word branch of `handle_message`: gift-code claim.  The user
record is created in memory if absent but only committed on success; the
code is uppercased; the three checks run in source order.  The credit uses
raw subscripts (`user['balance'] += points`): when the claimant's record
lacks the `balance` or `total_earned` key (it was created by
`process_code_submission` and never credited by an approval), a `KeyError`
escapes and nothing is committed; otherwise success is one commit crediting
balance and `total_earned`, bumping `claims` and appending the claimant. -/
def claim_gift (db : DB) (uid : ℕ) (text : String) : GiftResult × List DB :=
  if isBanned db uid then (.bannedUser, [])
  else
    let code := String.mk (text.data.map Char.toUpper)
    let users0 := ensureUser uid db.users
    match lookupKey code db.gift_codes with
    | none => (.notFound, [])
    | some g =>
      if g.max_claims ≤ g.claims then (.exhausted, [])
      else if uid ∈ g.users_claimed then (.alreadyClaimed, [])
      else
        let u0 := (lookupKey uid users0).getD (defaultUser uid)
        if u0.has_balance && u0.has_total_earned then
          let users1 := updateKey uid
            (fun u => { u with
              balance := u.balance + (g.points : ℚ),
              total_earned := u.total_earned + (g.points : ℚ) }) users0
          let g1 := { g with
            claims := g.claims + 1,
            users_claimed := g.users_claimed ++ [uid] }
          (.ok, [{ db with users := users1, gift_codes := upsert code g1 db.gift_codes }])
        else (.keyMissing, [])

/-- What `process_withdrawal` observes of the outside world: hot-wallet
liquidity and the broadcast/confirm outcome after its bounded retries. -/
inductive WOutcome
  | noUSDT | noBNB | txFailAll | txOk (hash : String)
deriving DecidableEq

inductive WdResult
  | bannedUser | belowMin | hasPending | keyMissing | insufficientBalance
  | badAddress | proceeded
deriving DecidableEq

/-- Modelled from the spec: address well-formedness is delegated to the
external blockchain client (`Web3.is_address`), an out-of-scope collaborator;
modelled as a `0x`-prefixed 40-hex-digit (lowercase) address. -/
def isAddress (s : String) : Bool :=
  decide (s.data.length = 42) && decide (s.data.take 2 = ['0', 'x']) &&
    (s.data.drop 2).all (fun c => c.isDigit || (decide ('a' ≤ c) && decide (c ≤ 'f')))

/-- `wd_{int(time.time())}_{user_id}`. -/
def wdId (now : ℚ) (uid : ℕ) : String :=
  "wd_" ++ toString (ratFloor now) ++ "_" ++ toString uid

/-- Commit A of a withdrawal request (`handle_message`): debit the balance
(the user record is created with defaults first when absent). -/
def wdDebit (db : DB) (uid : ℕ) (points : ℤ) : DB :=
  { db with
    users := updateKey uid
      (fun u => { u with balance := u.balance - (points : ℚ) })
      (ensureUser uid db.users) }

/-- Commit B (`process_withdrawal`): create the `processing` record. -/
def wdRecord (db : DB) (uid : ℕ) (points : ℤ) (addr : String) (now : ℚ) : DB :=
  { db with
    withdrawals := upsert (wdId now uid)
      { user_id := uid, points := points, address := addr,
        status := .processing, timestamp := now, tx_hash := none } db.withdrawals }

/-- Commit C on failure (`process_withdrawal`): refund the points and mark
the withdrawal `failed`. -/
def wdRefund (db : DB) (uid : ℕ) (points : ℤ) (now : ℚ) : DB :=
  { db with
    users := updateKey uid
      (fun u => { u with balance := u.balance + (points : ℚ) }) db.users,
    withdrawals := updateKey (wdId now uid)
      (fun w => { w with status := .failed }) db.withdrawals }

/-- Commit C on success (`process_withdrawal`): mark `completed`, store the
transaction hash, bump the user withdrawal counter. -/
def wdComplete (db : DB) (uid : ℕ) (now : ℚ) (h : String) : DB :=
  { db with
    withdrawals := updateKey (wdId now uid)
      (fun w => { w with status := .completed, tx_hash := some h }) db.withdrawals,
    users := updateKey uid
      (fun u => { u with withdrawals := u.withdrawals + 1 }) db.users }

/-- The multi-word branch of `handle_message` followed by
`process_withdrawal`: validation (minimum, existing `pending`-status
withdrawal, balance, address), then commit A debits the balance, commit B
creates the `processing` record, and commit C resolves it — refund and
`failed` on liquidity/transaction failure, `completed` plus withdrawal
counter on success.  Each commit is a separate `save_db` in the source. -/
def request_withdrawal (db : DB) (uid : ℕ) (points : ℤ) (addr : String)
    (now : ℚ) (oc : WOutcome) : WdResult × List DB :=
  if isBanned db uid then (.bannedUser, [])
  else
    let user := (lookupKey uid (ensureUser uid db.users)).getD (defaultUser uid)
    if (points : ℚ) < db.settings.min_withdraw then (.belowMin, [])
    else if db.withdrawals.any
        (fun p => decide (p.2.user_id = uid) && decide (p.2.status = .pending)) then
      (.hasPending, [])
    else if !user.has_balance then (.keyMissing, [])
    else if user.balance < (points : ℚ) then (.insufficientBalance, [])
    else if !isAddress addr then (.badAddress, [])
    else
      let dbA := wdDebit db uid points
      let dbB := wdRecord dbA uid points addr now
      match oc with
      | .txOk h => (.proceeded, [dbA, dbB, wdComplete dbB uid now h])
      | _ => (.proceeded, [dbA, dbB, wdRefund dbB uid points now])

/-- The referral scan of `start`: first user whose `referral_code` matches,
who is not the joiner, and whose `referrals` list does not already contain
the joiner (the loop only breaks in that case). -/
def referralScan (uid : ℕ) (refc : String) : List (ℕ × User) → Option ℕ
  | [] => none
  | (k, u) :: rest =>
    if u.referral_code = refc ∧ k ≠ uid ∧ uid ∉ u.referrals then some k
    else referralScan uid refc rest

/-- The `/start` handler: ban gate, user creation, optional referral
argument (applied only when the joiner's `referred_by` is falsy), a commit
inside the referral branch and the final commit. -/
def start_h (db : DB) (uid : ℕ) (arg : Option String) : List DB :=
  if isBanned db uid then []
  else
    let users0 := ensureUser uid db.users
    let db0 := { db with users := users0 }
    match arg with
    | none => [db0]
    | some refc =>
      let me := (lookupKey uid users0).getD (defaultUser uid)
      let falsyRef := match me.referred_by with
        | none => true
        | some r => decide (r = 0)
      if falsyRef then
        match referralScan uid refc users0 with
        | none => [db0]
        | some k =>
          let users1 := updateKey k
            (fun u => { u with referrals := u.referrals ++ [uid] }) users0
          let users2 := updateKey uid
            (fun u => { u with referred_by := some k }) users1
          let db1 := { db with users := users2 }
          [db1, db1]
      else [db0]

/-- The `/adjust` admin command: create the target if absent, then add the
(possibly negative) amount to both `balance` and `total_earned` by raw
subscript — a `KeyError` (record without those keys) aborts with no
commit. -/
def adjust_h (db : DB) (caller target : ℕ) (amount : ℤ) : List DB :=
  if caller ≠ db.admin_id then []
  else
    let users0 := ensureUser target db.users
    let u := (lookupKey target users0).getD (defaultUser target)
    if u.has_balance && u.has_total_earned then
      let users1 := updateKey target
        (fun u => { u with
          balance := u.balance + (amount : ℚ),
          total_earned := u.total_earned + (amount : ℚ) }) users0
      [{ db with users := users1 }]
    else []

/-- A callback-query action of `button_handler` as far as it touches the
store: the three mutating branches, and `readOnly` for every branch that
never calls `save_db` (menus, panels, statistics, listings). -/
inductive BtnAction
  | approveCode (code : String)
  | rejectCode (code : String)
  | approveAll
  | readOnly
deriving DecidableEq

/-- `button_handler`: ban gate first, then dispatch. -/
def button_h (db : DB) (caller : ℕ) (a : BtnAction) (now : ℚ) : List DB :=
  if isBanned db caller then []
  else match a with
  | .readOnly => []
  | .approveCode c => (approve_code db caller c now).2
  | .rejectCode c => (reject_code db caller c now).2
  | .approveAll => approve_all db caller now

/-- The public mutating operations reachable by ordinary traffic: code
submission, the moderation callbacks, and the two `handle_message` branches
(gift claim, withdrawal request). -/
inductive Op
  | submit (uid : ℕ) (code : String) (now : ℚ)
  | button (caller : ℕ) (a : BtnAction) (now : ℚ)
  | giftClaim (uid : ℕ) (text : String)
  | withdraw (uid : ℕ) (points : ℤ) (addr : String) (now : ℚ) (oc : WOutcome)

/-- The states committed by one handler invocation, in order.  A crash or a
failed `save_db` leaves the store at an earlier commit of the list. -/
def commitsOf (db : DB) : Op → List DB
  | .submit uid code now => (process_code_submission db uid code now).2
  | .button caller a now => button_h db caller a now
  | .giftClaim uid text => (claim_gift db uid text).2
  | .withdraw uid points addr now oc => (request_withdrawal db uid points addr now oc).2

/-- One committed transaction of the system. -/
def Step (db db' : DB) : Prop := ∃ op, db' ∈ commitsOf db op

/-- Reachability along committed transactions. -/
def Reach : DB → DB → Prop := Relation.ReflTransGen Step

/-- All user balances are non-negative. -/
def BalancesOk (db : DB) : Prop := ∀ p ∈ db.users, 0 ≤ p.2.balance

/-- Non-negative reward and referral-rate settings and non-negative
gift-code point values. -/
def SettingsOk (db : DB) : Prop :=
  0 ≤ db.settings.reward_per_code ∧ 0 ≤ db.settings.referral_rate ∧
    ∀ p ∈ db.gift_codes, 0 ≤ p.2.points


/-! ### Association-list lemmas -/

theorem lookupKey_nil {α β : Type} [DecidableEq α] {k : α} :
    lookupKey (β := β) k [] = none := rfl

theorem lookupKey_cons_self {α β : Type} [DecidableEq α] {k : α} {b : β}
    {rest : List (α × β)} : lookupKey k ((k, b) :: rest) = some b := by
  simp [lookupKey]

theorem lookupKey_cons_ne {α β : Type} [DecidableEq α] {k a : α} {b : β}
    {rest : List (α × β)} (h : k ≠ a) :
    lookupKey k ((a, b) :: rest) = lookupKey k rest := by
  simp [lookupKey, h]

theorem upsert_cons_self {α β : Type} [DecidableEq α] {k : α} {v b : β}
    {rest : List (α × β)} : upsert k v ((k, b) :: rest) = (k, v) :: rest := by
  simp [upsert]

theorem upsert_cons_ne {α β : Type} [DecidableEq α] {k a : α} {v b : β}
    {rest : List (α × β)} (h : k ≠ a) :
    upsert k v ((a, b) :: rest) = (a, b) :: upsert k v rest := by
  simp [upsert, h]

theorem updateKey_cons_self {α β : Type} [DecidableEq α] {k : α} {f : β → β} {b : β}
    {rest : List (α × β)} : updateKey k f ((k, b) :: rest) = (k, f b) :: rest := by
  simp [updateKey]

theorem updateKey_cons_ne {α β : Type} [DecidableEq α] {k a : α} {f : β → β} {b : β}
    {rest : List (α × β)} (h : k ≠ a) :
    updateKey k f ((a, b) :: rest) = (a, b) :: updateKey k f rest := by
  simp [updateKey, h]

theorem lookupKey_mem {α β : Type} [DecidableEq α] {k : α} {v : β} :
    ∀ {l : List (α × β)}, lookupKey k l = some v → (k, v) ∈ l
  | [], h => by simp [lookupKey] at h
  | (a, b) :: rest, h => by
    by_cases ha : k = a
    · subst ha
      rw [lookupKey_cons_self] at h
      cases h
      exact List.mem_cons_self _ _
    · rw [lookupKey_cons_ne ha] at h
      exact List.mem_cons_of_mem _ (lookupKey_mem h)

theorem lookupKey_upsert_self {α β : Type} [DecidableEq α] {k : α} {v : β} :
    ∀ {l : List (α × β)}, lookupKey k (upsert k v l) = some v
  | [] => by simp [lookupKey, upsert]
  | (a, b) :: rest => by
    by_cases ha : k = a
    · subst ha
      rw [upsert_cons_self, lookupKey_cons_self]
    · rw [upsert_cons_ne ha, lookupKey_cons_ne ha]
      exact lookupKey_upsert_self

theorem lookupKey_upsert_ne {α β : Type} [DecidableEq α] {k k' : α} {v : β}
    (hk : k ≠ k') : ∀ {l : List (α × β)}, lookupKey k (upsert k' v l) = lookupKey k l
  | [] => by simp [lookupKey, upsert, hk]
  | (a, b) :: rest => by
    by_cases ha : k' = a
    · subst ha
      rw [upsert_cons_self, lookupKey_cons_ne hk, lookupKey_cons_ne hk]
    · rw [upsert_cons_ne ha]
      by_cases hka : k = a
      · subst hka
        rw [lookupKey_cons_self, lookupKey_cons_self]
      · rw [lookupKey_cons_ne hka, lookupKey_cons_ne hka]
        exact lookupKey_upsert_ne hk

theorem lookupKey_updateKey_self {α β : Type} [DecidableEq α] {k : α} {f : β → β} :
    ∀ {l : List (α × β)}, lookupKey k (updateKey k f l) = (lookupKey k l).map f
  | [] => by simp [lookupKey, updateKey]
  | (a, b) :: rest => by
    by_cases ha : k = a
    · subst ha
      rw [updateKey_cons_self, lookupKey_cons_self, lookupKey_cons_self]
      rfl
    · rw [updateKey_cons_ne ha, lookupKey_cons_ne ha, lookupKey_cons_ne ha]
      exact lookupKey_updateKey_self

theorem lookupKey_updateKey_ne {α β : Type} [DecidableEq α] {k k' : α} {f : β → β}
    (hk : k ≠ k') : ∀ {l : List (α × β)}, lookupKey k (updateKey k' f l) = lookupKey k l
  | [] => by simp [lookupKey, updateKey]
  | (a, b) :: rest => by
    by_cases ha : k' = a
    · subst ha
      rw [updateKey_cons_self, lookupKey_cons_ne hk, lookupKey_cons_ne hk]
    · rw [updateKey_cons_ne ha]
      by_cases hka : k = a
      · subst hka
        rw [lookupKey_cons_self, lookupKey_cons_self]
      · rw [lookupKey_cons_ne hka, lookupKey_cons_ne hka]
        exact lookupKey_updateKey_ne hk

theorem mem_upsert {α β : Type} [DecidableEq α] {k : α} {v : β} {p : α × β} :
    ∀ {l : List (α × β)}, p ∈ upsert k v l → p = (k, v) ∨ p ∈ l
  | [], h => by
    simp only [upsert, List.mem_singleton] at h
    exact Or.inl h
  | (a, b) :: rest, h => by
    by_cases ha : k = a
    · subst ha
      rw [upsert_cons_self, List.mem_cons] at h
      exact h.imp (fun h1 => h1) (fun h1 => List.mem_cons_of_mem _ h1)
    · rw [upsert_cons_ne ha, List.mem_cons] at h
      refine h.elim (fun h1 => Or.inr ?_) (fun h1 => ?_)
      · rw [h1]
        exact List.mem_cons_self _ _
      · exact (mem_upsert h1).imp (fun h2 => h2) (fun h2 => List.mem_cons_of_mem _ h2)

theorem mem_updateKey {α β : Type} [DecidableEq α] {k : α} {f : β → β} {p : α × β} :
    ∀ {l : List (α × β)}, p ∈ updateKey k f l →
      p ∈ l ∨ ∃ v, lookupKey k l = some v ∧ p = (k, f v)
  | [], h => by simp [updateKey] at h
  | (a, b) :: rest, h => by
    by_cases ha : k = a
    · subst ha
      rw [updateKey_cons_self, List.mem_cons] at h
      refine h.elim (fun h1 => Or.inr ⟨b, lookupKey_cons_self, h1⟩)
        (fun h1 => Or.inl (List.mem_cons_of_mem _ h1))
    · rw [updateKey_cons_ne ha, List.mem_cons] at h
      refine h.elim (fun h1 => Or.inl ?_) (fun h1 => ?_)
      · rw [h1]
        exact List.mem_cons_self _ _
      · refine (mem_updateKey h1).imp (fun h2 => List.mem_cons_of_mem _ h2) ?_
        rintro ⟨v, hv, hp⟩
        exact ⟨v, by rw [lookupKey_cons_ne ha]; exact hv, hp⟩

/-- Two bindings of the same key in a list with nodup keys are equal. -/
theorem nodupKeys_eq {α β : Type} [DecidableEq α] {k : α} {a b : β} :
    ∀ {l : List (α × β)}, (l.map Prod.fst).Nodup → (k, a) ∈ l → (k, b) ∈ l → a = b
  | [], _, ha, _ => by simp at ha
  | (x, y) :: rest, hnd, ha, hb => by
    simp only [List.map_cons, List.nodup_cons] at hnd
    rw [List.mem_cons] at ha hb
    rcases ha with ha | ha <;> rcases hb with hb | hb
    · injection ha with ha1 ha2
      injection hb with hb1 hb2
      rw [ha2, hb2]
    · exfalso
      injection ha with ha1 ha2
      apply hnd.1
      rw [← ha1]
      exact List.mem_map_of_mem Prod.fst hb
    · exfalso
      injection hb with hb1 hb2
      apply hnd.1
      rw [← hb1]
      exact List.mem_map_of_mem Prod.fst ha
    · exact nodupKeys_eq hnd.2 ha hb

/-! ### Non-negativity of the rounded commission -/

theorem ratFloor_nonneg {q : ℚ} (h : 0 ≤ q) : 0 ≤ ratFloor q :=
  Int.fdiv_nonneg (Rat.num_nonneg.mpr h) (Int.ofNat_nonneg _)

theorem roundHalfEven_nonneg {q : ℚ} (h : 0 ≤ q) : 0 ≤ roundHalfEven q := by
  have hf := ratFloor_nonneg h
  unfold roundHalfEven
  split
  · exact hf
  · split
    · omega
    · split
      · exact hf
      · omega

theorem pyRound4_nonneg {q : ℚ} (h : 0 ≤ q) : 0 ≤ pyRound4 q := by
  unfold pyRound4
  apply div_nonneg _ (by norm_num)
  exact_mod_cast roundHalfEven_nonneg (by positivity)

/-! ### Balance non-negativity machinery -/

/-- All balances in a user map are non-negative. -/
def UsersOk (l : List (ℕ × User)) : Prop := ∀ p ∈ l, 0 ≤ p.2.balance

theorem usersOk_upsert {l : List (ℕ × User)} {k : ℕ} {v : User}
    (h : UsersOk l) (hv : 0 ≤ v.balance) : UsersOk (upsert k v l) := by
  intro p hp
  rcases mem_upsert hp with rfl | hp
  · exact hv
  · exact h p hp

theorem usersOk_updateKey {l : List (ℕ × User)} {k : ℕ} {f : User → User}
    (h : UsersOk l) (hf : ∀ u, lookupKey k l = some u → 0 ≤ (f u).balance) :
    UsersOk (updateKey k f l) := by
  intro p hp
  rcases mem_updateKey hp with hp | ⟨v, hv, rfl⟩
  · exact h p hp
  · exact hf v hv

theorem usersOk_lookup {l : List (ℕ × User)} {k : ℕ} {u : User}
    (h : UsersOk l) (hu : lookupKey k l = some u) : 0 ≤ u.balance :=
  h (k, u) (lookupKey_mem hu)

theorem usersOk_ensure {l : List (ℕ × User)} {uid : ℕ} (h : UsersOk l) :
    UsersOk (ensureUser uid l) := by
  unfold ensureUser
  split
  · exact h
  · exact usersOk_upsert h le_rfl

theorem usersOk_creditApprove {l : List (ℕ × User)} {sub : ℕ} {reward rate : ℚ}
    (hr : 0 ≤ reward) (hrate : 0 ≤ rate) (h : UsersOk l) :
    UsersOk (creditApprove l sub reward rate) := by
  have h1 : UsersOk (updateKey sub
      (fun u => { u with
        balance := u.balance + reward,
        total_earned := u.total_earned + reward,
        has_balance := true,
        has_total_earned := true }) l) := by
    apply usersOk_updateKey h
    intro u hu
    exact add_nonneg (usersOk_lookup h hu) hr
  simp only [creditApprove]
  split
  · exact h1
  · split
    · apply usersOk_updateKey h1
      intro u hu
      exact add_nonneg (usersOk_lookup h1 hu) (pyRound4_nonneg (mul_nonneg hr hrate))
    · exact h1

theorem usersOk_getD {l : List (ℕ × User)} {uid : ℕ} (h : UsersOk l) :
    0 ≤ ((lookupKey uid l).getD (defaultUser uid)).balance := by
  rcases hl : lookupKey uid l with _ | u
  · simp [defaultUser]
  · simpa using usersOk_lookup h hl

theorem usersOk_getDP {l : List (ℕ × User)} {uid : ℕ} (h : UsersOk l) :
    0 ≤ ((lookupKey uid l).getD (partialUser uid)).balance := by
  rcases hl : lookupKey uid l with _ | u
  · simp [partialUser, defaultUser]
  · simpa using usersOk_lookup h hl

theorem lookupKey_ensure_self {l : List (ℕ × User)} {uid : ℕ} :
    lookupKey uid (ensureUser uid l) =
      some ((lookupKey uid l).getD (defaultUser uid)) := by
  unfold ensureUser
  split
  · rename_i hsome
    rcases hl : lookupKey uid l with _ | u
    · rw [hl] at hsome
      simp at hsome
    · simp [hl]
  · rename_i hsome
    rcases hl : lookupKey uid l with _ | u
    · simp [hl, lookupKey_upsert_self]
    · rw [hl] at hsome
      simp at hsome

/-! ### Preservation of the ledger invariant by every public operation -/

theorem submit_inv {db db' : DB} {uid : ℕ} {code : String} {now : ℚ}
    (hs : SettingsOk db) (hu : UsersOk db.users)
    (hmem : db' ∈ (process_code_submission db uid code now).2) :
    SettingsOk db' ∧ UsersOk db'.users := by
  simp only [process_code_submission] at hmem
  split at hmem
  · simp at hmem
  · split at hmem
    · simp at hmem
    · split at hmem
      · simp at hmem
      · split at hmem
        · simp at hmem
        · split at hmem
          · simp at hmem
          · split at hmem
            · simp at hmem
            · rw [List.mem_singleton] at hmem
              subst hmem
              refine ⟨hs, ?_⟩
              exact usersOk_upsert hu (usersOk_getDP hu)

theorem approve_core_inv {db db' : DB} {caller : ℕ} {code : String} {now : ℚ}
    (hs : SettingsOk db) (hu : UsersOk db.users)
    (hmem : db' ∈ (approve_code_core db caller code now).2) :
    SettingsOk db' ∧ UsersOk db'.users := by
  simp only [approve_code_core] at hmem
  split at hmem
  · simp at hmem
  · split at hmem
    · simp at hmem
    · split at hmem
      · simp at hmem
      · split at hmem
        · rw [List.mem_cons, List.mem_singleton] at hmem
          rcases hmem with rfl | rfl
          · exact ⟨hs, hu⟩
          · exact ⟨hs, usersOk_creditApprove hs.1 hs.2.1 hu⟩
        · rw [List.mem_singleton] at hmem
          subst hmem
          exact ⟨hs, hu⟩

theorem reject_core_inv {db db' : DB} {caller : ℕ} {code : String} {now : ℚ}
    (hs : SettingsOk db) (hu : UsersOk db.users)
    (hmem : db' ∈ (reject_code_core db caller code now).2) :
    SettingsOk db' ∧ UsersOk db'.users := by
  simp only [reject_code_core] at hmem
  split at hmem
  · simp at hmem
  · split at hmem
    · simp at hmem
    · split at hmem
      · simp at hmem
      · rw [List.mem_cons, List.mem_singleton] at hmem
        rcases hmem with rfl | rfl
        · exact ⟨hs, hu⟩
        · exact ⟨hs, hu⟩

theorem approveOne_inv {db : DB} {now : ℚ} {code : String}
    (hs : SettingsOk db) (hu : UsersOk db.users) :
    SettingsOk (approveOne db now code) ∧ UsersOk (approveOne db now code).users := by
  unfold approveOne
  split
  · exact ⟨hs, hu⟩
  · split
    · exact ⟨hs, usersOk_creditApprove hs.1 hs.2.1 hu⟩
    · exact ⟨hs, hu⟩

theorem foldl_approve_inv {now : ℚ} :
    ∀ (l : List String) (db : DB), SettingsOk db → UsersOk db.users →
      SettingsOk (l.foldl (fun d c => approveOne d now c) db) ∧
        UsersOk (l.foldl (fun d c => approveOne d now c) db).users
  | [], db, hs, hu => ⟨hs, hu⟩
  | c :: rest, db, hs, hu => by
    rw [List.foldl_cons]
    obtain ⟨hs1, hu1⟩ := @approveOne_inv db now c hs hu
    exact foldl_approve_inv rest _ hs1 hu1

theorem approve_all_core_inv {db : DB} {now : ℚ}
    (hs : SettingsOk db) (hu : UsersOk db.users) :
    SettingsOk (approve_all_core db now) ∧ UsersOk (approve_all_core db now).users := by
  unfold approve_all_core
  exact foldl_approve_inv _ db hs hu

theorem gift_inv {db db' : DB} {uid : ℕ} {text : String}
    (hs : SettingsOk db) (hu : UsersOk db.users)
    (hmem : db' ∈ (claim_gift db uid text).2) :
    SettingsOk db' ∧ UsersOk db'.users := by
  simp only [claim_gift] at hmem
  split at hmem
  · simp at hmem
  · split at hmem
    · simp at hmem
    · rename_i g hg
      split at hmem
      · simp at hmem
      · split at hmem
        · simp at hmem
        · split at hmem
          swap
          · simp at hmem
          rw [List.mem_singleton] at hmem
          subst hmem
          have hgp : 0 ≤ g.points := hs.2.2 _ (lookupKey_mem hg)
          constructor
          · refine ⟨hs.1, hs.2.1, ?_⟩
            intro p hp
            rcases mem_upsert hp with rfl | hp
            · exact hgp
            · exact hs.2.2 p hp
          · apply usersOk_updateKey (usersOk_ensure hu)
            intro u hu2
            have : 0 ≤ (g.points : ℚ) := by exact_mod_cast hgp
            exact add_nonneg (usersOk_lookup (usersOk_ensure hu) hu2) this

theorem wdDebit_usersOk {db : DB} {uid : ℕ} {points : ℤ} (hu : UsersOk db.users)
    (hbal : ¬(((lookupKey uid (ensureUser uid db.users)).getD
      (defaultUser uid)).balance < (points : ℚ))) :
    UsersOk (wdDebit db uid points).users := by
  rw [lookupKey_ensure_self, Option.getD_some, not_lt] at hbal
  unfold wdDebit
  apply usersOk_updateKey (usersOk_ensure hu)
  intro u hu2
  rw [lookupKey_ensure_self] at hu2
  cases hu2
  exact sub_nonneg.mpr hbal

theorem wdRefund_usersOk {db : DB} {uid : ℕ} {points : ℤ} {addr : String} {now : ℚ}
    (hu : UsersOk db.users)
    (hbal : ¬(((lookupKey uid (ensureUser uid db.users)).getD
      (defaultUser uid)).balance < (points : ℚ))) :
    UsersOk (wdRefund (wdRecord (wdDebit db uid points) uid points addr now)
      uid points now).users := by
  show UsersOk (updateKey uid
    (fun u => { u with balance := u.balance + (points : ℚ) })
    (wdDebit db uid points).users)
  apply usersOk_updateKey (wdDebit_usersOk hu hbal)
  intro u hu2
  have hu3 : lookupKey uid (updateKey uid
      (fun u => { u with balance := u.balance - (points : ℚ) })
      (ensureUser uid db.users)) = some u := hu2
  rw [lookupKey_updateKey_self, lookupKey_ensure_self] at hu3
  cases hu3
  show 0 ≤ ((lookupKey uid db.users).getD (defaultUser uid)).balance
    - (points : ℚ) + (points : ℚ)
  have hx : ((lookupKey uid db.users).getD (defaultUser uid)).balance
      - (points : ℚ) + (points : ℚ)
      = ((lookupKey uid db.users).getD (defaultUser uid)).balance := by ring
  rw [hx]
  exact usersOk_getD hu

theorem withdraw_inv {db db' : DB} {uid : ℕ} {points : ℤ} {addr : String}
    {now : ℚ} {oc : WOutcome}
    (hs : SettingsOk db) (hu : UsersOk db.users)
    (hmem : db' ∈ (request_withdrawal db uid points addr now oc).2) :
    SettingsOk db' ∧ UsersOk db'.users := by
  simp only [request_withdrawal] at hmem
  split at hmem
  · simp at hmem
  · split at hmem
    · simp at hmem
    · split at hmem
      · simp at hmem
      · split at hmem
        · simp at hmem
        · split at hmem
          · simp at hmem
          · split at hmem
            · simp at hmem
            · rename_i hbal _
              have huA : UsersOk (wdDebit db uid points).users := wdDebit_usersOk hu hbal
              split at hmem
              all_goals
                rw [List.mem_cons, List.mem_cons, List.mem_singleton] at hmem
              · rcases hmem with rfl | rfl | rfl
                · exact ⟨hs, huA⟩
                · exact ⟨hs, huA⟩
                · refine ⟨hs, ?_⟩
                  unfold wdComplete
                  apply usersOk_updateKey
                  · exact huA
                  · intro u hu2
                    show 0 ≤ u.balance
                    exact usersOk_lookup huA hu2
              · rcases hmem with rfl | rfl | rfl
                · exact ⟨hs, huA⟩
                · exact ⟨hs, huA⟩
                · exact ⟨hs, wdRefund_usersOk hu hbal⟩

theorem approve_code_inv {db db' : DB} {caller : ℕ} {code : String} {now : ℚ}
    (hs : SettingsOk db) (hu : UsersOk db.users)
    (hmem : db' ∈ (approve_code db caller code now).2) :
    SettingsOk db' ∧ UsersOk db'.users := by
  simp only [approve_code] at hmem
  split at hmem
  · simp at hmem
  · split at hmem
    · simp at hmem
    · exact approve_core_inv hs hu hmem

theorem reject_code_inv {db db' : DB} {caller : ℕ} {code : String} {now : ℚ}
    (hs : SettingsOk db) (hu : UsersOk db.users)
    (hmem : db' ∈ (reject_code db caller code now).2) :
    SettingsOk db' ∧ UsersOk db'.users := by
  simp only [reject_code] at hmem
  split at hmem
  · simp at hmem
  · split at hmem
    · simp at hmem
    · exact reject_core_inv hs hu hmem

theorem button_inv {db db' : DB} {caller : ℕ} {a : BtnAction} {now : ℚ}
    (hs : SettingsOk db) (hu : UsersOk db.users)
    (hmem : db' ∈ button_h db caller a now) :
    SettingsOk db' ∧ UsersOk db'.users := by
  simp only [button_h] at hmem
  split at hmem
  · simp at hmem
  · cases a with
    | readOnly => simp at hmem
    | approveCode c => exact approve_code_inv hs hu hmem
    | rejectCode c => exact reject_code_inv hs hu hmem
    | approveAll =>
      simp only [approve_all] at hmem
      split at hmem
      · simp at hmem
      · split at hmem
        · rw [List.mem_singleton] at hmem
          subst hmem
          exact approve_all_core_inv hs hu
        · simp at hmem

/-- Every committed transaction preserves non-negative settings and
non-negative balances. -/
theorem step_inv {db db' : DB} (hs : SettingsOk db) (hu : UsersOk db.users)
    (h : Step db db') : SettingsOk db' ∧ UsersOk db'.users := by
  rcases h with ⟨op, hmem⟩
  cases op with
  | submit uid code now => exact submit_inv hs hu hmem
  | button caller a now => exact button_inv hs hu hmem
  | giftClaim uid text => exact gift_inv hs hu hmem
  | withdraw uid points addr now oc => exact withdraw_inv hs hu hmem

theorem reach_inv {db0 db : DB} (hs : SettingsOk db0) (hu : UsersOk db0.users)
    (h : Reach db0 db) : SettingsOk db ∧ UsersOk db.users := by
  induction h with
  | refl => exact ⟨hs, hu⟩
  | tail hr hstep ih => exact step_inv ih.1 ih.2 hstep

/-- C1: for every user and every sequence of the public mutating operations
(submit, decide, gift-code claim, withdrawal request), starting from a state
with non-negative balances and non-negative reward/gift-point settings, all
user balances are still non-negative after every committed transaction. -/
theorem c1_balance_nonneg (db0 db : DB)
    (hsettings : SettingsOk db0) (hbal : BalancesOk db0) (hreach : Reach db0 db) :
    BalancesOk db :=
  (reach_inv hsettings hbal hreach).2

/-- A concrete start state for the witnesses: admin 1, user 5 with 40
points, one gift code worth 500 points, moderator 9. -/
def wDB : DB :=
  { admin_id := 1,
    users := [(5, { defaultUser 5 with balance := 40 })],
    codes := [],
    gift_codes := [("SYNK500",
      { points := 500, max_claims := 2, claims := 0, created_at := 0,
        created_by := 1, users_claimed := [] })],
    withdrawals := [],
    moderators := [(9, true)],
    settings :=
      { reward_per_code := 2, referral_rate := mkRat 1 20,
        min_withdraw := 500, bot_active := true } }

/-- The state after user 5 claims the gift code in `wDB`. -/
def wDB1 : DB := (claim_gift wDB 5 "synk500").2.getLastD wDB

unseal Rat.add Rat.sub Rat.mul Rat.inv in
theorem c1_witness :
    SettingsOk wDB ∧ BalancesOk wDB ∧ BalancesOk wDB1 :=
  ⟨by unfold SettingsOk; decide, by unfold BalancesOk; decide,
    c1_balance_nonneg wDB wDB1 (by unfold SettingsOk; decide)
      (by unfold BalancesOk; decide)
      (Relation.ReflTransGen.single ⟨Op.giftClaim 5 "synk500", by decide⟩)⟩

/-- A lowercase hex payout address used by the concrete examples. -/
def addrA : String := "0xaaaaaaaaaaaaaaaaaaaaaaaaaaaaaaaaaaaaaaaa"

/-- Concrete state: user 5 (balance 1000, referred by user 7), user 7,
moderator 9, one pending code submitted by user 5. -/
def xDB : DB :=
  { admin_id := 1,
    users := [(5, { defaultUser 5 with balance := 1000, referred_by := some 7 }),
              (7, defaultUser 7)],
    codes := [("CODE1",
      { status := .pending, user_id := 5, timestamp := 0,
        moderator_id := none, processed_at := none })],
    gift_codes := [],
    withdrawals := [],
    moderators := [(9, true)],
    settings :=
      { reward_per_code := 2, referral_rate := mkRat 1 20,
        min_withdraw := 500, bot_active := true } }

unseal Rat.add Rat.sub Rat.mul Rat.inv in
/-- C2 counterexample: the first committed state of a successful withdrawal
request (user 5 requesting 600 of 1000 points) already has the balance
debited to 400 while the withdrawals collection is still empty — the debit
and the `processing` record are not committed in the same transaction. -/
theorem c2_counterexample :
    (request_withdrawal xDB 5 600 addrA 100 (.txOk "0xtx")).1 = WdResult.proceeded ∧
    ((request_withdrawal xDB 5 600 addrA 100 (.txOk "0xtx")).2.head?.map
      (fun d => ((lookupKey 5 d.users).map User.balance, d.withdrawals)))
      = some (some 400, []) := by
  constructor
  · decide
  · decide

/-- C2 amended: a successful withdrawal request debits the balance by
exactly the requested points in a first transaction of its own, then creates
the `processing` record in a second transaction, then resolves the
withdrawal in a third; between the first two commits the balance is debited
with no corresponding record, and if the second persistence step fails the
debit persists alone. -/
theorem c2_two_phase (db : DB) (uid : ℕ) (points : ℤ) (addr : String) (now : ℚ)
    (oc : WOutcome) (dbs : List DB)
    (h : request_withdrawal db uid points addr now oc = (.proceeded, dbs)) :
    ∃ dbC, dbs =
        [wdDebit db uid points,
         wdRecord (wdDebit db uid points) uid points addr now, dbC] ∧
      lookupKey uid (wdDebit db uid points).users =
        some { (lookupKey uid db.users).getD (defaultUser uid) with
               balance := ((lookupKey uid db.users).getD (defaultUser uid)).balance
                 - (points : ℚ) } ∧
      (wdDebit db uid points).withdrawals = db.withdrawals ∧
      (wdRecord (wdDebit db uid points) uid points addr now).withdrawals =
        upsert (wdId now uid)
          { user_id := uid, points := points, address := addr,
            status := .processing, timestamp := now, tx_hash := none }
          db.withdrawals := by
  have hlook : lookupKey uid (wdDebit db uid points).users =
      some { (lookupKey uid db.users).getD (defaultUser uid) with
             balance := ((lookupKey uid db.users).getD (defaultUser uid)).balance
               - (points : ℚ) } := by
    show lookupKey uid (updateKey uid
      (fun u => { u with balance := u.balance - (points : ℚ) })
      (ensureUser uid db.users)) = _
    rw [lookupKey_updateKey_self, lookupKey_ensure_self]
    rfl
  simp only [request_withdrawal] at h
  split at h
  · simp at h
  · split at h
    · simp at h
    · split at h
      · simp at h
      · split at h
        · simp at h
        · split at h
          · simp at h
          · split at h
            · simp at h
            · split at h
              · rw [Prod.mk.injEq] at h
                exact ⟨_, h.2.symm, hlook, rfl, rfl⟩
              · rw [Prod.mk.injEq] at h
                exact ⟨_, h.2.symm, hlook, rfl, rfl⟩

unseal Rat.add Rat.sub Rat.mul Rat.inv in
theorem c2_witness :
    request_withdrawal xDB 5 600 addrA 100 (.txOk "0xtx")
        = (WdResult.proceeded, (request_withdrawal xDB 5 600 addrA 100 (.txOk "0xtx")).2) ∧
    ∃ dbC, (request_withdrawal xDB 5 600 addrA 100 (.txOk "0xtx")).2 =
        [wdDebit xDB 5 600, wdRecord (wdDebit xDB 5 600) 5 600 addrA 100, dbC] ∧
      lookupKey 5 (wdDebit xDB 5 600).users =
        some { (lookupKey 5 xDB.users).getD (defaultUser 5) with
               balance := ((lookupKey 5 xDB.users).getD (defaultUser 5)).balance
                 - ((600 : ℤ) : ℚ) } ∧
      (wdDebit xDB 5 600).withdrawals = xDB.withdrawals ∧
      (wdRecord (wdDebit xDB 5 600) 5 600 addrA 100).withdrawals =
        upsert (wdId 100 5)
          { user_id := 5, points := 600, address := addrA,
            status := .processing, timestamp := 100, tx_hash := none }
          xDB.withdrawals :=
  ⟨by decide,
    c2_two_phase xDB 5 600 addrA 100 (.txOk "0xtx") _ (by decide)⟩

/-- `xDB` plus an in-flight withdrawal for user 5 in `processing` status. -/
def pDB : DB :=
  { xDB with
    withdrawals := [("w0",
      { user_id := 5, points := 600, address := addrA,
        status := .processing, timestamp := 0, tx_hash := none })] }

/-- `xDB` plus an in-flight withdrawal for user 5 in `pending` status. -/
def qDB : DB :=
  { xDB with
    withdrawals := [("w1",
      { user_id := 5, points := 600, address := addrA,
        status := .pending, timestamp := 0, tx_hash := none })] }

unseal Rat.add Rat.sub Rat.mul Rat.inv in
/-- C3 counterexample: user 5 already has a withdrawal in `processing`
status, yet a new withdrawal request succeeds and commits — the in-flight
check only looks for `pending`-status records, so two in-flight withdrawals
coexist. -/
theorem c3_counterexample :
    ((lookupKey "w0" pDB.withdrawals).map Withdrawal.status
      = some WStatus.processing) ∧
    (request_withdrawal pDB 5 600 addrA 100 (.txOk "0xtx")).1
      = WdResult.proceeded ∧
    (request_withdrawal pDB 5 600 addrA 100 (.txOk "0xtx")).2 ≠ [] := by
  refine ⟨by decide, by decide, by decide⟩

/-- C3 amended: a withdrawal request fails with no committed state change
whenever the user already has a withdrawal in `pending` status; records are
created directly in `processing` status, which does not block, so several
in-flight withdrawals per user are possible. -/
theorem c3_pending_blocks (db : DB) (uid : ℕ) (points : ℤ) (addr : String)
    (now : ℚ) (oc : WOutcome) (w : String × Withdrawal)
    (hw : w ∈ db.withdrawals) (hwu : w.2.user_id = uid)
    (hws : w.2.status = .pending) :
    (request_withdrawal db uid points addr now oc).2 = [] ∧
    (request_withdrawal db uid points addr now oc).1 ≠ .proceeded := by
  simp only [request_withdrawal]
  split
  · exact ⟨rfl, by decide⟩
  · split
    · exact ⟨rfl, by decide⟩
    · split
      · exact ⟨rfl, by decide⟩
      · rename_i hany
        exfalso
        apply hany
        rw [List.any_eq_true]
        refine ⟨w, hw, ?_⟩
        simp [hwu, hws]

unseal Rat.add Rat.sub Rat.mul Rat.inv in
theorem c3_witness :
    ("w1", ({ user_id := 5, points := 600, address := addrA,
              status := .pending, timestamp := 0, tx_hash := none } : Withdrawal))
      ∈ qDB.withdrawals ∧
    (request_withdrawal qDB 5 600 addrA 100 (.txOk "0xtx")).2 = [] ∧
    (request_withdrawal qDB 5 600 addrA 100 (.txOk "0xtx")).1 ≠ .proceeded :=
  ⟨by decide,
    c3_pending_blocks qDB 5 600 addrA 100 (.txOk "0xtx")
      ("w1", { user_id := 5, points := 600, address := addrA,
               status := .pending, timestamp := 0, tx_hash := none })
      (by decide) rfl rfl⟩

unseal Rat.add Rat.sub Rat.mul Rat.inv in
/-- C4 counterexample: approving the pending code of user 5 (referred by
user 7, reward 2, rate 1/20) credits the referrer 1/10 of a point — the
amount rounded to four decimal places — while rounding `reward * rate` to
the nearest integer gives 0. -/
theorem c4_counterexample :
    (approve_code xDB 9 "CODE1" 50).1 = DecideResult.decided ∧
    ((approve_code xDB 9 "CODE1" 50).2.getLast?.bind
      (fun d => (lookupKey 7 d.users).map User.balance)) = some (mkRat 1 10) ∧
    (lookupKey 7 xDB.users).map User.balance = some 0 ∧
    mkRat 1 10 ≠ ((roundHalfEven ((2 : ℚ) * mkRat 1 20) : ℤ) : ℚ) := by
  refine ⟨by decide, by decide, by decide, by decide⟩

/-- C4 amended: when a code is approved through the single-code handler and
its submitter has a `referredBy` that resolves (a nonzero id of an existing,
distinct user), the referrer's balance and referralCommission are each
credited by `reward * rate` rounded half-to-even to four decimal places
(not to the nearest integer), exactly once per approval; when the submitter
has no `referredBy`, no user other than the submitter is touched. -/
theorem c4_commission (db : DB) (caller : ℕ) (code : String) (now : ℚ)
    (c : Code) (us : User)
    (hc : lookupKey code db.codes = some c) (hp : c.status = .pending)
    (hm : c.moderator_id = none) (hb : isBanned db caller = false)
    (ha : authorizedMod db caller = true)
    (hu : lookupKey c.user_id db.users = some us) :
    ((approve_code db caller code now).2.getLast?.map DB.users =
      some (creditApprove db.users c.user_id db.settings.reward_per_code
        db.settings.referral_rate)) ∧
    (∀ r ur, us.referred_by = some r → r ≠ 0 → r ≠ c.user_id →
      lookupKey r db.users = some ur →
      lookupKey r (creditApprove db.users c.user_id db.settings.reward_per_code
          db.settings.referral_rate) =
        some { ur with
          referral_commission := ur.referral_commission +
            pyRound4 (db.settings.reward_per_code * db.settings.referral_rate),
          balance := ur.balance +
            pyRound4 (db.settings.reward_per_code * db.settings.referral_rate),
          has_balance := true }) ∧
    (us.referred_by = none → ∀ k, k ≠ c.user_id →
      lookupKey k (creditApprove db.users c.user_id db.settings.reward_per_code
          db.settings.referral_rate) = lookupKey k db.users) := by
  refine ⟨?_, ?_, ?_⟩
  · simp only [approve_code, hb, ha, Bool.not_true, Bool.false_eq_true, if_false]
    simp only [approve_code_core, hc, hp, hm]
    simp only [ne_eq, not_true_eq_false, if_false]
    have hsome : (lookupKey c.user_id
        ({ db with
           codes := upsert code { c with moderator_id := some caller } db.codes
         } : DB).users).isSome = true := by
      show (lookupKey c.user_id db.users).isSome = true
      rw [hu]
      rfl
    rw [if_pos hsome]
    rfl
  · intro r ur hra hr0 hrs hur
    have hscrut : ({ us with
                     balance := us.balance + db.settings.reward_per_code,
                     total_earned := us.total_earned + db.settings.reward_per_code,
                     has_balance := true, has_total_earned := true
                   } : User).referred_by = some r := hra
    simp only [creditApprove, lookupKey_updateKey_self, hu, Option.map_some',
      Option.getD_some]
    split
    · rename_i heq
      rw [hscrut] at heq
      cases heq
    · rename_i r' heq
      rw [hscrut] at heq
      injection heq with heq2
      subst heq2
      split
      · rw [lookupKey_updateKey_self, lookupKey_updateKey_ne hrs, hur]
        rfl
      · rename_i hno
        refine absurd ⟨hr0, ?_⟩ hno
        rw [lookupKey_updateKey_ne hrs, hur]
        rfl
  · intro hnone k hk
    have hscrut : ({ us with
                     balance := us.balance + db.settings.reward_per_code,
                     total_earned := us.total_earned + db.settings.reward_per_code,
                     has_balance := true, has_total_earned := true
                   } : User).referred_by = none := hnone
    simp only [creditApprove, lookupKey_updateKey_self, hu, Option.map_some',
      Option.getD_some]
    split
    · exact lookupKey_updateKey_ne hk
    · rename_i r' heq
      rw [hscrut] at heq
      cases heq

unseal Rat.add Rat.sub Rat.mul Rat.inv in
theorem c4_witness :
    ((approve_code xDB 9 "CODE1" 50).2.getLast?.map DB.users =
      some (creditApprove xDB.users 5 xDB.settings.reward_per_code
        xDB.settings.referral_rate)) ∧
    lookupKey 7 (creditApprove xDB.users 5 xDB.settings.reward_per_code
        xDB.settings.referral_rate) =
      some { defaultUser 7 with
        referral_commission := (defaultUser 7).referral_commission +
          pyRound4 (xDB.settings.reward_per_code * xDB.settings.referral_rate),
        balance := (defaultUser 7).balance +
          pyRound4 (xDB.settings.reward_per_code * xDB.settings.referral_rate),
        has_balance := true } := by
  have h := c4_commission xDB 9 "CODE1" 50
    { status := .pending, user_id := 5, timestamp := 0,
      moderator_id := none, processed_at := none }
    ({ defaultUser 5 with balance := 1000, referred_by := some 7 })
    (by decide) rfl rfl (by decide) (by decide) (by decide)
  exact ⟨h.1, h.2.1 7 (defaultUser 7) rfl (by decide) (by decide) (by decide)⟩

/-- `xDB` with the pending code already locked by moderator 999. -/
def lDB : DB :=
  { xDB with
    codes := [("CODE1",
      { status := .pending, user_id := 5, timestamp := 0,
        moderator_id := some 999, processed_at := none })] }

unseal Rat.add Rat.sub Rat.mul Rat.inv in
/-- C5 counterexample: code CODE1 is pending with `lockedBy = 999`, yet the
admin (id 1) decides it through the approve-all action: the decision is
applied by a caller who does not hold the claim, and the lock is even
overwritten with the admin id. -/
theorem c5_counterexample :
    ((lookupKey "CODE1" lDB.codes).map Code.status = some CStatus.pending) ∧
    ((lookupKey "CODE1" lDB.codes).bind Code.moderator_id = some 999) ∧
    (999 : ℕ) ≠ 1 ∧ lDB.admin_id = 1 ∧
    ((button_h lDB 1 BtnAction.approveAll 50).head?.bind
      (fun d => (lookupKey "CODE1" d.codes).map Code.status))
      = some CStatus.approved ∧
    ((button_h lDB 1 BtnAction.approveAll 50).head?.bind
      (fun d => (lookupKey "CODE1" d.codes).bind Code.moderator_id)) = some 1 := by
  refine ⟨by decide, by decide, by decide, by decide, by decide, by decide⟩

theorem approveOne_codes_ne {d : DB} {now : ℚ} {K code : String} (h : K ≠ code) :
    lookupKey K (approveOne d now code).codes = lookupKey K d.codes := by
  unfold approveOne
  split
  · rfl
  · split
    · exact lookupKey_upsert_ne h
    · rfl

theorem foldl_approve_codes {now : ℚ} {K : String} :
    ∀ (l : List String) (d : DB), K ∉ l →
      lookupKey K ((l.foldl (fun d c => approveOne d now c) d)).codes
        = lookupKey K d.codes
  | [], _, _ => rfl
  | c :: rest, d, hK => by
    rw [List.foldl_cons]
    have h1 : K ≠ c := fun h => hK (h ▸ List.mem_cons_self c rest)
    rw [foldl_approve_codes rest _ (fun h => hK (List.mem_cons_of_mem c h))]
    exact approveOne_codes_ne h1

theorem terminal_not_in_pending {db : DB} {K : String} {c : Code}
    (hnd : (db.codes.map Prod.fst).Nodup) (hK : lookupKey K db.codes = some c)
    (hterm : c.status ≠ .pending) :
    K ∉ (db.codes.filter (fun p => decide (p.2.status = .pending))).map Prod.fst := by
  intro hmem
  rw [List.mem_map] at hmem
  obtain ⟨⟨k1, c1⟩, hp, hpk⟩ := hmem
  rw [List.mem_filter] at hp
  have hps : c1.status = .pending := by simpa using hp.2
  have hk1 : k1 = K := hpk
  subst hk1
  have hc1 : c1 = c := nodupKeys_eq hnd hp.1 (lookupKey_mem hK)
  rw [hc1] at hps
  exact hterm hps

/-- C5 amended: a code that has reached `approved` or `rejected` is never
modified again by any committed transaction, so a pending code transitions
to a terminal status at most once; the lock discipline however differs from
the claim — the single-code handlers decide only codes that are pending and
unlocked at entry (claiming and deciding in one callback, and refusing a
caller who already holds the lock), while the admin approve-all decides
pending codes regardless of `lockedBy`. -/
theorem c5_terminal_immutable (db db' : DB) (K : String) (c : Code)
    (hnd : (db.codes.map Prod.fst).Nodup)
    (hK : lookupKey K db.codes = some c) (hterm : c.status ≠ .pending)
    (hstep : Step db db') :
    lookupKey K db'.codes = some c := by
  rcases hstep with ⟨op, hmem⟩
  cases op with
  | submit uid code now =>
    simp only [commitsOf, process_code_submission] at hmem
    split at hmem
    · simp at hmem
    · split at hmem
      · simp at hmem
      · split at hmem
        · simp at hmem
        · split at hmem
          · simp at hmem
          · split at hmem
            · simp at hmem
            · split at hmem
              · simp at hmem
              · rename_i hdup
                rw [List.mem_singleton] at hmem
                subst hmem
                have hne : K ≠ code := by
                  intro h
                  subst h
                  rw [hK] at hdup
                  simp at hdup
                show lookupKey K (upsert code _ db.codes) = some c
                rw [lookupKey_upsert_ne hne]
                exact hK
  | button caller a now =>
    simp only [commitsOf, button_h] at hmem
    split at hmem
    · simp at hmem
    · cases a with
      | readOnly => simp at hmem
      | approveCode code =>
        simp only [approve_code] at hmem
        split at hmem
        · simp at hmem
        · split at hmem
          · simp at hmem
          · simp only [approve_code_core] at hmem
            split at hmem
            · simp at hmem
            · rename_i c1 heq
              split at hmem
              · simp at hmem
              · rename_i hpend
                have hne : K ≠ code := by
                  intro h
                  subst h
                  rw [hK] at heq
                  cases heq
                  exact hterm (not_not.mp hpend)
                split at hmem
                · simp at hmem
                · split at hmem
                  · rw [List.mem_cons, List.mem_singleton] at hmem
                    rcases hmem with rfl | rfl
                    · show lookupKey K (upsert code _ db.codes) = some c
                      rw [lookupKey_upsert_ne hne]
                      exact hK
                    · show lookupKey K (upsert code _ (upsert code _ db.codes)) = some c
                      rw [lookupKey_upsert_ne hne, lookupKey_upsert_ne hne]
                      exact hK
                  · rw [List.mem_singleton] at hmem
                    subst hmem
                    show lookupKey K (upsert code _ db.codes) = some c
                    rw [lookupKey_upsert_ne hne]
                    exact hK
      | rejectCode code =>
        simp only [reject_code] at hmem
        split at hmem
        · simp at hmem
        · split at hmem
          · simp at hmem
          · simp only [reject_code_core] at hmem
            split at hmem
            · simp at hmem
            · rename_i c1 heq
              split at hmem
              · simp at hmem
              · rename_i hpend
                have hne : K ≠ code := by
                  intro h
                  subst h
                  rw [hK] at heq
                  cases heq
                  exact hterm (not_not.mp hpend)
                split at hmem
                · simp at hmem
                · rw [List.mem_cons, List.mem_singleton] at hmem
                  rcases hmem with rfl | rfl
                  · show lookupKey K (upsert code _ db.codes) = some c
                    rw [lookupKey_upsert_ne hne]
                    exact hK
                  · show lookupKey K (upsert code _ (upsert code _ db.codes)) = some c
                    rw [lookupKey_upsert_ne hne, lookupKey_upsert_ne hne]
                    exact hK
      | approveAll =>
        simp only [approve_all] at hmem
        split at hmem
        · simp at hmem
        · split at hmem
          · rw [List.mem_singleton] at hmem
            subst hmem
            unfold approve_all_core
            rw [foldl_approve_codes _ db (terminal_not_in_pending hnd hK hterm)]
            exact hK
          · simp at hmem
  | giftClaim uid text =>
    simp only [commitsOf, claim_gift] at hmem
    split at hmem
    · simp at hmem
    · split at hmem
      · simp at hmem
      · split at hmem
        · simp at hmem
        · split at hmem
          · simp at hmem
          · split at hmem
            · rw [List.mem_singleton] at hmem
              subst hmem
              exact hK
            · simp at hmem
  | withdraw uid points addr now oc =>
    simp only [commitsOf, request_withdrawal] at hmem
    split at hmem
    · simp at hmem
    · split at hmem
      · simp at hmem
      · split at hmem
        · simp at hmem
        · split at hmem
          · simp at hmem
          · split at hmem
            · simp at hmem
            · split at hmem
              · simp at hmem
              · split at hmem
                all_goals
                  rw [List.mem_cons, List.mem_cons, List.mem_singleton] at hmem
                · rcases hmem with rfl | rfl | rfl
                  · exact hK
                  · exact hK
                  · exact hK
                · rcases hmem with rfl | rfl | rfl
                  · exact hK
                  · exact hK
                  · exact hK

/-- A terminal (approved) code for the C5 witness. -/
def tDB : DB :=
  { xDB with
    codes := [("CODEA",
      { status := .approved, user_id := 5, timestamp := 0,
        moderator_id := some 9, processed_at := some 10 })] }

unseal Rat.add Rat.sub Rat.mul Rat.inv in
theorem c5_witness :
    (tDB.codes.map Prod.fst).Nodup ∧
    lookupKey "CODEA" tDB.codes =
      some { status := .approved, user_id := 5, timestamp := 0,
             moderator_id := some 9, processed_at := some 10 } ∧
    ({ status := .approved, user_id := 5, timestamp := 0,
       moderator_id := some 9, processed_at := some 10 } : Code).status
      ≠ CStatus.pending ∧
    lookupKey "CODEA" ((button_h tDB 1 BtnAction.approveAll 50).headD tDB).codes =
      some { status := .approved, user_id := 5, timestamp := 0,
             moderator_id := some 9, processed_at := some 10 } :=
  ⟨by decide, by decide, by decide,
    c5_terminal_immutable tDB ((button_h tDB 1 BtnAction.approveAll 50).headD tDB)
      "CODEA"
      { status := .approved, user_id := 5, timestamp := 0,
        moderator_id := some 9, processed_at := some 10 }
      (by decide) (by decide) (by decide)
      ⟨Op.button 1 BtnAction.approveAll 50, by decide⟩⟩

/-- `xDB` with the pending code locked by moderator 9 (the caller itself). -/
def mDB : DB :=
  { xDB with
    codes := [("CODE1",
      { status := .pending, user_id := 5, timestamp := 0,
        moderator_id := some 9, processed_at := none })] }

unseal Rat.add Rat.sub Rat.mul Rat.inv in
/-- C6 counterexample: code CODE1 is pending and `lockedBy` is already set
to the caller, moderator 9; the claim says the decision step should then
proceed (set `lockedBy = moderatorId` and commit), but the handler refuses
with the already-claimed error and commits nothing. -/
theorem c6_counterexample :
    ((lookupKey "CODE1" mDB.codes).map Code.status = some CStatus.pending) ∧
    ((lookupKey "CODE1" mDB.codes).bind Code.moderator_id = some 9) ∧
    isModerator mDB 9 = true ∧ isBanned mDB 9 = false ∧
    approve_code mDB 9 "CODE1" 50 = (DecideResult.alreadyLocked, []) := by
  refine ⟨by decide, by decide, by decide, by decide, by decide⟩

/-- C6 amended: for an authorized, unbanned caller, the claim step of the
approve handler fails (merged not-found/already-processed error) if the code
is missing or not `pending`; fails with the already-claimed error whenever
`lockedBy` is set to any moderator — including the caller itself; and only
when `lockedBy` is unset does it set `lockedBy = moderatorId` and commit
(then immediately proceed to the decision). -/
theorem c6_claim_trichotomy (db : DB) (caller : ℕ) (code : String) (now : ℚ)
    (hb : isBanned db caller = false) (ha : authorizedMod db caller = true) :
    (lookupKey code db.codes = none →
      approve_code db caller code now = (.notFoundOrProcessed, [])) ∧
    (∀ c, lookupKey code db.codes = some c → c.status ≠ .pending →
      approve_code db caller code now = (.notFoundOrProcessed, [])) ∧
    (∀ c m, lookupKey code db.codes = some c → c.status = .pending →
      c.moderator_id = some m →
      approve_code db caller code now = (.alreadyLocked, [])) ∧
    (∀ c, lookupKey code db.codes = some c → c.status = .pending →
      c.moderator_id = none →
      (approve_code db caller code now).2.head? =
        some { db with
               codes := upsert code { c with moderator_id := some caller }
                 db.codes }) := by
  have hg : approve_code db caller code now = approve_code_core db caller code now := by
    simp [approve_code, hb, ha]
  refine ⟨?_, ?_, ?_, ?_⟩
  · intro hc
    rw [hg]
    simp [approve_code_core, hc]
  · intro c hc hcs
    rw [hg]
    simp [approve_code_core, hc, hcs]
  · intro c m hc hcs hcm
    rw [hg]
    simp [approve_code_core, hc, hcs, hcm]
  · intro c hc hcs hcm
    rw [hg]
    simp only [approve_code_core, hc, hcs, hcm, ne_eq, not_true_eq_false,
      if_false]
    split
    · rfl
    · rfl

unseal Rat.add Rat.sub Rat.mul Rat.inv in
theorem c6_witness :
    isBanned xDB 9 = false ∧ authorizedMod xDB 9 = true ∧
    lookupKey "CODE1" xDB.codes =
      some { status := .pending, user_id := 5, timestamp := 0,
             moderator_id := none, processed_at := none } ∧
    (approve_code xDB 9 "CODE1" 50).2.head? =
      some { xDB with
             codes := upsert "CODE1"
               { status := .pending, user_id := 5, timestamp := 0,
                 moderator_id := some 9, processed_at := none } xDB.codes } :=
  ⟨by decide, by decide, by decide,
    (c6_claim_trichotomy xDB 9 "CODE1" 50 (by decide) (by decide)).2.2.2
      { status := .pending, user_id := 5, timestamp := 0,
        moderator_id := none, processed_at := none }
      (by decide) rfl rfl⟩

/-- User 5 with 30 lifetime submissions, the last one at time 0. -/
def sDB : DB :=
  { xDB with
    users := [(5, { defaultUser 5 with submission_count := 30 })],
    codes := [] }

unseal Rat.add Rat.sub Rat.mul Rat.inv in
/-- C7: the submission counter is a lifetime counter that is never reset.
User 5 made their 30 submissions long ago (`last_submission = 0`, the
request arrives at time 1000000, more than 11 days later, so no submission
was made "today" and the cooldown has long passed), the code is fresh and
well-formed, yet the submission is rejected with the daily-limit error. -/
theorem c7_lifetime_counter_blocks :
    (lookupKey 5 sDB.users).map User.submission_count = some 30 ∧
    (lookupKey 5 sDB.users).map User.last_submission = some 0 ∧
    validCodeFormat "ABCDE" = true ∧
    lookupKey "ABCDE" sDB.codes = none ∧
    process_code_submission sDB 5 "ABCDE" 1000000
      = (SubmitResult.dailyLimit, []) := by
  refine ⟨by decide, by decide, by decide, by decide, by decide⟩

/-- A store with the SYNK500 gift code and no users: user 5's first
interaction will be a code submission. -/
def gDB : DB :=
  { admin_id := 1,
    users := [],
    codes := [],
    gift_codes := [("SYNK500",
      { points := 500, max_claims := 2, claims := 0, created_at := 0,
        created_by := 1, users_claimed := [] })],
    withdrawals := [],
    moderators := [],
    settings :=
      { reward_per_code := 2, referral_rate := mkRat 1 20,
        min_withdraw := 500, bot_active := true } }

/-- The state after user 5's code submission created their (partial)
record. -/
def gDB1 : DB := (process_code_submission gDB 5 "ABCDE" 1000).2.getLastD gDB

unseal Rat.add Rat.sub Rat.mul Rat.inv in
/-- C8 counterexample: user 5's record was created by a code submission, so
it lacks the `balance`/`total_earned` keys; the gift code exists, is not
exhausted and not yet claimed by user 5 — per the claim the claim must
credit and commit — yet the raw `user['balance'] += points` update raises
`KeyError` and nothing is committed. -/
theorem c8_counterexample :
    (process_code_submission gDB 5 "ABCDE" 1000).1 = SubmitResult.ok ∧
    (lookupKey 5 gDB1.users).map User.has_balance = some false ∧
    lookupKey "SYNK500" gDB1.gift_codes =
      some { points := 500, max_claims := 2, claims := 0, created_at := 0,
             created_by := 1, users_claimed := [] } ∧
    isBanned gDB1 5 = false ∧
    claim_gift gDB1 5 "synk500" = (GiftResult.keyMissing, []) := by
  refine ⟨by decide, by decide, by decide, by decide, by decide⟩

/-- C8 amended: for an unbanned user the gift claim fails with not-found if
the (uppercased) code is absent, exhausted if `claims ≥ max_claims`,
already-claimed if the user is among the claimants — each with no state
change; otherwise, when the claimant's record carries the `balance` and
`total_earned` keys, one single commit credits `points` to balance and
`totalEarned`, appends the user to the claimants and increments `claims` by
exactly one; but when the record lacks either key (it was created by a code
submission and never credited by an approval), the raw balance update
raises `KeyError` and nothing is committed. -/
theorem c8_gift_claim (db : DB) (uid : ℕ) (text : String)
    (hb : isBanned db uid = false) :
    (lookupKey (String.mk (text.data.map Char.toUpper)) db.gift_codes = none →
      claim_gift db uid text = (.notFound, [])) ∧
    (∀ g, lookupKey (String.mk (text.data.map Char.toUpper)) db.gift_codes = some g →
      g.max_claims ≤ g.claims →
      claim_gift db uid text = (.exhausted, [])) ∧
    (∀ g, lookupKey (String.mk (text.data.map Char.toUpper)) db.gift_codes = some g →
      ¬(g.max_claims ≤ g.claims) → uid ∈ g.users_claimed →
      claim_gift db uid text = (.alreadyClaimed, [])) ∧
    (∀ g u0, lookupKey (String.mk (text.data.map Char.toUpper)) db.gift_codes = some g →
      ¬(g.max_claims ≤ g.claims) → uid ∉ g.users_claimed →
      lookupKey uid (ensureUser uid db.users) = some u0 →
      (u0.has_balance && u0.has_total_earned) = false →
      claim_gift db uid text = (.keyMissing, [])) ∧
    (∀ g u0, lookupKey (String.mk (text.data.map Char.toUpper)) db.gift_codes = some g →
      ¬(g.max_claims ≤ g.claims) → uid ∉ g.users_claimed →
      lookupKey uid (ensureUser uid db.users) = some u0 →
      u0.has_balance = true → u0.has_total_earned = true →
      ∃ db', claim_gift db uid text = (.ok, [db']) ∧
        lookupKey uid db'.users =
          some { u0 with
                 balance := u0.balance + (g.points : ℚ),
                 total_earned := u0.total_earned + (g.points : ℚ) } ∧
        lookupKey (String.mk (text.data.map Char.toUpper)) db'.gift_codes =
          some { g with
                 claims := g.claims + 1,
                 users_claimed := g.users_claimed ++ [uid] }) := by
  refine ⟨?_, ?_, ?_, ?_, ?_⟩
  · intro hc
    simp [claim_gift, hb, hc]
  · intro g hc hcl
    simp [claim_gift, hb, hc, hcl]
  · intro g hc hcl hmem
    simp [claim_gift, hb, hc, hcl, hmem]
  · intro g u0 hc hcl hmem hu0 hkeys
    have hg : (((lookupKey uid (ensureUser uid db.users)).getD
        (defaultUser uid)).has_balance
          && ((lookupKey uid (ensureUser uid db.users)).getD
        (defaultUser uid)).has_total_earned) = false := by
      rw [hu0]
      show (u0.has_balance && u0.has_total_earned) = false
      exact hkeys
    simp [claim_gift, hb, hc, hcl, hmem, hg]
  · intro g u0 hc hcl hmem hu0 hk1 hk2
    have hg : (((lookupKey uid (ensureUser uid db.users)).getD
        (defaultUser uid)).has_balance
          && ((lookupKey uid (ensureUser uid db.users)).getD
        (defaultUser uid)).has_total_earned) = true := by
      rw [hu0]
      show (u0.has_balance && u0.has_total_earned) = true
      rw [hk1, hk2]
      rfl
    refine ⟨{ db with
              users := updateKey uid
                (fun u => { u with
                            balance := u.balance + (g.points : ℚ),
                            total_earned := u.total_earned + (g.points : ℚ) })
                (ensureUser uid db.users),
              gift_codes := upsert (String.mk (text.data.map Char.toUpper))
                { g with
                  claims := g.claims + 1,
                  users_claimed := g.users_claimed ++ [uid] } db.gift_codes },
            ?_, ?_, ?_⟩
    · simp [claim_gift, hb, hc, hcl, hmem, hg]
    · show lookupKey uid (updateKey uid
        (fun u => { u with
                    balance := u.balance + (g.points : ℚ),
                    total_earned := u.total_earned + (g.points : ℚ) })
        (ensureUser uid db.users)) = _
      rw [lookupKey_updateKey_self, hu0]
      rfl
    · exact lookupKey_upsert_self

unseal Rat.add Rat.sub Rat.mul Rat.inv in
theorem c8_witness :
    isBanned wDB 5 = false ∧
    ∃ db', claim_gift wDB 5 "synk500" = (.ok, [db']) ∧
      lookupKey 5 db'.users =
        some { ({ defaultUser 5 with balance := 40 } : User) with
               balance := ({ defaultUser 5 with balance := 40 } : User).balance
                 + ((500 : ℤ) : ℚ),
               total_earned := ({ defaultUser 5 with balance := 40 } : User).total_earned
                 + ((500 : ℤ) : ℚ) } ∧
      lookupKey (String.mk ("synk500".data.map Char.toUpper)) db'.gift_codes =
        some { ({ points := 500, max_claims := 2, claims := 0, created_at := 0,
                  created_by := 1, users_claimed := [] } : GiftCode) with
               claims := ({ points := 500, max_claims := 2, claims := 0,
                            created_at := 0, created_by := 1,
                            users_claimed := [] } : GiftCode).claims + 1,
               users_claimed := [] ++ [5] } :=
  ⟨by decide,
    (c8_gift_claim wDB 5 "synk500" (by decide)).2.2.2.2
      { points := 500, max_claims := 2, claims := 0, created_at := 0,
        created_by := 1, users_claimed := [] }
      ({ defaultUser 5 with balance := 40 })
      (by decide) (by decide) (by decide) (by decide) (by decide) (by decide)⟩

/-! ### Monotonicity of `totalEarned` -/

/-- Every user present in `l` is still present in `l'` with a `total_earned`
at least as large. -/
def UsersMono (l l' : List (ℕ × User)) : Prop :=
  ∀ k u, lookupKey k l = some u →
    ∃ u', lookupKey k l' = some u' ∧ u.total_earned ≤ u'.total_earned

theorem usersMono_refl {l : List (ℕ × User)} : UsersMono l l :=
  fun _ u h => ⟨u, h, le_rfl⟩

theorem usersMono_trans {a b c : List (ℕ × User)}
    (h1 : UsersMono a b) (h2 : UsersMono b c) : UsersMono a c := by
  intro k u h
  obtain ⟨u1, hl1, hle1⟩ := h1 k u h
  obtain ⟨u2, hl2, hle2⟩ := h2 k u1 hl1
  exact ⟨u2, hl2, le_trans hle1 hle2⟩

theorem usersMono_updateKey {l : List (ℕ × User)} {k : ℕ} {f : User → User}
    (hf : ∀ u, u.total_earned ≤ (f u).total_earned) :
    UsersMono l (updateKey k f l) := by
  intro k' u h
  by_cases hk : k' = k
  · subst hk
    refine ⟨f u, ?_, hf u⟩
    rw [lookupKey_updateKey_self, h]
    rfl
  · refine ⟨u, ?_, le_rfl⟩
    rw [lookupKey_updateKey_ne hk]
    exact h

theorem usersMono_upsert {l : List (ℕ × User)} {k : ℕ} {v : User}
    (hv : ∀ u, lookupKey k l = some u → u.total_earned ≤ v.total_earned) :
    UsersMono l (upsert k v l) := by
  intro k' u h
  by_cases hk : k' = k
  · subst hk
    exact ⟨v, lookupKey_upsert_self, hv u h⟩
  · refine ⟨u, ?_, le_rfl⟩
    rw [lookupKey_upsert_ne hk]
    exact h

theorem usersMono_ensure {l : List (ℕ × User)} {uid : ℕ} :
    UsersMono l (ensureUser uid l) := by
  unfold ensureUser
  split
  · exact usersMono_refl
  · rename_i hnone
    apply usersMono_upsert
    intro u hu
    rw [hu] at hnone
    simp at hnone

theorem usersMono_credit {l : List (ℕ × User)} {sub : ℕ} {reward rate : ℚ}
    (hr : 0 ≤ reward) : UsersMono l (creditApprove l sub reward rate) := by
  have h1 : UsersMono l (updateKey sub
      (fun u => { u with
        balance := u.balance + reward,
        total_earned := u.total_earned + reward,
        has_balance := true,
        has_total_earned := true }) l) :=
    usersMono_updateKey (fun u => le_add_of_nonneg_right hr)
  simp only [creditApprove]
  split
  · exact h1
  · split
    · exact usersMono_trans h1 (usersMono_updateKey (fun u => le_rfl))
    · exact h1

theorem approveOne_settings {d : DB} {now : ℚ} {code : String} :
    (approveOne d now code).settings = d.settings := by
  unfold approveOne
  split
  · rfl
  · split
    · rfl
    · rfl

theorem approveOne_mono {d : DB} {now : ℚ} {code : String}
    (hr : 0 ≤ d.settings.reward_per_code) :
    UsersMono d.users (approveOne d now code).users := by
  unfold approveOne
  split
  · exact usersMono_refl
  · split
    · exact usersMono_credit hr
    · exact usersMono_refl

theorem foldl_approve_mono {now : ℚ} :
    ∀ (l : List String) (d : DB), 0 ≤ d.settings.reward_per_code →
      UsersMono d.users ((l.foldl (fun d c => approveOne d now c) d)).users
  | [], _, _ => usersMono_refl
  | c :: rest, d, hr => by
    rw [List.foldl_cons]
    refine usersMono_trans (approveOne_mono hr) (foldl_approve_mono rest _ ?_)
    rw [approveOne_settings]
    exact hr

theorem submit_mono {db db' : DB} {uid : ℕ} {code : String} {now : ℚ}
    (hmem : db' ∈ (process_code_submission db uid code now).2) :
    UsersMono db.users db'.users := by
  simp only [process_code_submission] at hmem
  split at hmem
  · simp at hmem
  · split at hmem
    · simp at hmem
    · split at hmem
      · simp at hmem
      · split at hmem
        · simp at hmem
        · split at hmem
          · simp at hmem
          · split at hmem
            · simp at hmem
            · rw [List.mem_singleton] at hmem
              subst hmem
              apply usersMono_upsert
              intro u hu
              rw [hu]
              exact le_rfl

theorem approve_code_mono {db db' : DB} {caller : ℕ} {code : String} {now : ℚ}
    (hr : 0 ≤ db.settings.reward_per_code)
    (hmem : db' ∈ (approve_code db caller code now).2) :
    UsersMono db.users db'.users := by
  simp only [approve_code] at hmem
  split at hmem
  · simp at hmem
  · split at hmem
    · simp at hmem
    · simp only [approve_code_core] at hmem
      split at hmem
      · simp at hmem
      · split at hmem
        · simp at hmem
        · split at hmem
          · simp at hmem
          · split at hmem
            · rw [List.mem_cons, List.mem_singleton] at hmem
              rcases hmem with rfl | rfl
              · exact usersMono_refl
              · exact usersMono_credit hr
            · rw [List.mem_singleton] at hmem
              subst hmem
              exact usersMono_refl

theorem reject_code_mono {db db' : DB} {caller : ℕ} {code : String} {now : ℚ}
    (hmem : db' ∈ (reject_code db caller code now).2) :
    UsersMono db.users db'.users := by
  simp only [reject_code] at hmem
  split at hmem
  · simp at hmem
  · split at hmem
    · simp at hmem
    · simp only [reject_code_core] at hmem
      split at hmem
      · simp at hmem
      · split at hmem
        · simp at hmem
        · split at hmem
          · simp at hmem
          · rw [List.mem_cons, List.mem_singleton] at hmem
            rcases hmem with rfl | rfl
            · exact usersMono_refl
            · exact usersMono_refl

theorem gift_mono {db db' : DB} {uid : ℕ} {text : String}
    (hs : SettingsOk db) (hmem : db' ∈ (claim_gift db uid text).2) :
    UsersMono db.users db'.users := by
  simp only [claim_gift] at hmem
  split at hmem
  · simp at hmem
  · split at hmem
    · simp at hmem
    · rename_i g hg
      split at hmem
      · simp at hmem
      · split at hmem
        · simp at hmem
        · split at hmem
          · rw [List.mem_singleton] at hmem
            subst hmem
            refine usersMono_trans usersMono_ensure (usersMono_updateKey ?_)
            intro u
            have : (0 : ℚ) ≤ (g.points : ℚ) := by
              exact_mod_cast hs.2.2 _ (lookupKey_mem hg)
            exact le_add_of_nonneg_right this
          · simp at hmem

theorem withdraw_mono {db db' : DB} {uid : ℕ} {points : ℤ} {addr : String}
    {now : ℚ} {oc : WOutcome}
    (hmem : db' ∈ (request_withdrawal db uid points addr now oc).2) :
    UsersMono db.users db'.users := by
  have hA : UsersMono db.users (wdDebit db uid points).users :=
    usersMono_trans usersMono_ensure (usersMono_updateKey (fun u => le_rfl))
  simp only [request_withdrawal] at hmem
  split at hmem
  · simp at hmem
  · split at hmem
    · simp at hmem
    · split at hmem
      · simp at hmem
      · split at hmem
        · simp at hmem
        · split at hmem
          · simp at hmem
          · split at hmem
            · simp at hmem
            · split at hmem
              all_goals
                rw [List.mem_cons, List.mem_cons, List.mem_singleton] at hmem
              · rcases hmem with rfl | rfl | rfl
                · exact hA
                · exact hA
                · exact usersMono_trans hA (usersMono_updateKey (fun u => le_rfl))
              · rcases hmem with rfl | rfl | rfl
                · exact hA
                · exact hA
                · exact usersMono_trans hA (usersMono_updateKey (fun u => le_rfl))

theorem step_mono {db db' : DB} (hs : SettingsOk db) (hstep : Step db db') :
    UsersMono db.users db'.users := by
  rcases hstep with ⟨op, hmem⟩
  cases op with
  | submit uid code now => exact submit_mono hmem
  | button caller a now =>
    simp only [commitsOf, button_h] at hmem
    split at hmem
    · simp at hmem
    · cases a with
      | readOnly => simp at hmem
      | approveCode c => exact approve_code_mono hs.1 hmem
      | rejectCode c => exact reject_code_mono hmem
      | approveAll =>
        simp only [approve_all] at hmem
        split at hmem
        · simp at hmem
        · split at hmem
          · rw [List.mem_singleton] at hmem
            subst hmem
            exact foldl_approve_mono _ db hs.1
          · simp at hmem
  | giftClaim uid text => exact gift_mono hs hmem
  | withdraw uid points addr now oc => exact withdraw_mono hmem

unseal Rat.add Rat.sub Rat.mul Rat.inv in
/-- C9 counterexample: the admin `/adjust` command with a negative amount
adds it to `totalEarned`: adjusting user 5 by −3 drops `totalEarned` from 0
to −3, so `totalEarned` is not monotone under admin balance adjustments. -/
theorem c9_counterexample :
    (lookupKey 5 xDB.users).map User.total_earned = some 0 ∧
    ((adjust_h xDB 1 5 (-3)).head?.bind
      (fun d => (lookupKey 5 d.users).map User.total_earned)) = some (-3) ∧
    ((-3 : ℚ) < 0) := by
  refine ⟨by decide, by decide, by decide⟩

/-- C9 amended: starting from non-negative reward/gift settings and
non-negative balances, `totalEarned` is monotone non-decreasing across every
committed transaction of the public operations (submit, decide, gift claim,
withdrawal); the admin `/adjust` command however adds its signed amount to
`totalEarned`, so a negative adjustment decreases it. -/
theorem c9_total_earned_mono (db0 db : DB)
    (hs : SettingsOk db0) (hu : UsersOk db0.users) (hreach : Reach db0 db) :
    UsersMono db0.users db.users := by
  induction hreach with
  | refl => exact usersMono_refl
  | tail hr hstep ih =>
    have hinv := reach_inv hs hu hr
    exact usersMono_trans ih (step_mono hinv.1 hstep)

unseal Rat.add Rat.sub Rat.mul Rat.inv in
theorem c9_witness :
    SettingsOk wDB ∧ UsersOk wDB.users ∧
    ∃ u', lookupKey 5 wDB1.users = some u' ∧
      ({ defaultUser 5 with balance := 40 } : User).total_earned ≤ u'.total_earned :=
  ⟨by unfold SettingsOk; decide, by unfold UsersOk; decide,
    c9_total_earned_mono wDB wDB1 (by unfold SettingsOk; decide)
      (by unfold UsersOk; decide)
      (Relation.ReflTransGen.single ⟨Op.giftClaim 5 "synk500", by decide⟩)
      5 ({ defaultUser 5 with balance := 40 }) (by decide)⟩

/-- C10: a banned user's request never commits anything.  Every user-facing
entry point — `/start`, code submission, callback-button actions, and the
plain-text gift-claim and withdrawal messages — checks the banned flag
before any mutation, returns the ban notice and leaves the store
unchanged. -/
theorem c10_banned_no_effect (db : DB) (uid : ℕ) (u : User)
    (hu : lookupKey uid db.users = some u) (hb : u.banned = true) :
    (∀ arg, start_h db uid arg = []) ∧
    (∀ code now, process_code_submission db uid code now = (.bannedUser, [])) ∧
    (∀ a now, button_h db uid a now = []) ∧
    (∀ text, claim_gift db uid text = (.bannedUser, [])) ∧
    (∀ points addr now oc,
      request_withdrawal db uid points addr now oc = (.bannedUser, [])) := by
  have hban : isBanned db uid = true := by
    simp [isBanned, hu, hb]
  refine ⟨?_, ?_, ?_, ?_, ?_⟩
  · intro arg
    simp [start_h, hban]
  · intro code now
    simp [process_code_submission, hu, hb]
  · intro a now
    simp [button_h, hban]
  · intro text
    simp [claim_gift, hban]
  · intro points addr now oc
    simp [request_withdrawal, hban]

/-- A store whose only user, 6, is banned. -/
def bDB : DB :=
  { xDB with users := [(6, { defaultUser 6 with banned := true })] }

unseal Rat.add Rat.sub Rat.mul Rat.inv in
theorem c10_witness :
    lookupKey 6 bDB.users = some { defaultUser 6 with banned := true } ∧
    start_h bDB 6 none = [] ∧
    process_code_submission bDB 6 "ABCDE" 0 = (.bannedUser, []) ∧
    button_h bDB 6 (BtnAction.approveCode "CODE1") 0 = [] ∧
    claim_gift bDB 6 "synk500" = (.bannedUser, []) ∧
    request_withdrawal bDB 6 600 addrA 0 (.txOk "0xtx") = (.bannedUser, []) :=
  have h := c10_banned_no_effect bDB 6 { defaultUser 6 with banned := true }
    (by decide) rfl
  ⟨by decide, h.1 none, h.2.1 "ABCDE" 0,
    h.2.2.1 (BtnAction.approveCode "CODE1") 0, h.2.2.2.1 "synk500",
    h.2.2.2.2 600 addrA 0 (.txOk "0xtx")⟩

end SynkGo

